import Mathlib

/-!
# Verification of the omegle-front pairing and signaling server

Shallow embedding of the socket server in `next.config.ts` (the interest-based
variant: `parseInterests`, `findCommonInterests`, `findBestMatch`, and the
`find_partner` / `send_message` / `offer` / `answer` / `ice-candidate` /
`stop_video` / `skip` / `leaveChat` / `disconnect` handlers), together with
theorems settling the specification claims about it.

Strings are Lean `String`s; the JavaScript string primitives used by the code
(`trim`, `toLowerCase`, `split(",")`, truthiness) are modelled on the
underlying character lists.
-/

/-- Whitespace recognised by JavaScript `String.prototype.trim` (ASCII part:
space, tab, line feed, vertical tab, form feed, carriage return). -/
def isWsChar (c : Char) : Bool :=
  c.toNat == 32 || c.toNat == 9 || c.toNat == 10 || c.toNat == 11 ||
  c.toNat == 12 || c.toNat == 13

/-- Characters of a string after JavaScript `trim`: drop whitespace from the
front, then from the back. -/
def trimChars (l : List Char) : List Char :=
  (l.dropWhile isWsChar).rdropWhile isWsChar

/-- JavaScript `s.trim()`. -/
def jsTrim (s : String) : String := ⟨trimChars s.data⟩

/-- JavaScript `toLowerCase` on one character (ASCII range). -/
def toLowerChar (c : Char) : Char :=
  if 65 ≤ c.toNat ∧ c.toNat ≤ 90 then Char.ofNat (c.toNat + 32) else c

/-- JavaScript `s.toLowerCase()`. -/
def jsToLower (s : String) : String := ⟨s.data.map toLowerChar⟩

/-- JavaScript `s.split(",")` on the character list: `""` yields `[""]`,
separators produce empty pieces. -/
def splitCommaChars : List Char → List (List Char)
  | [] => [[]]
  | c :: cs =>
    if c = ',' then [] :: splitCommaChars cs
    else
      match splitCommaChars cs with
      | [] => [[c]]
      | p :: ps => (c :: p) :: ps

/-- JavaScript `s.split(",")`. -/
def jsSplitComma (s : String) : List String :=
  (splitCommaChars s.data).map (fun l => ⟨l⟩)

/-- The runtime value handed to `find_partner` / `skip`: a string, an array of
strings, or anything else (`null`, `undefined`, a number, an object, …).  For
the last case the flag records whether the value is JavaScript-truthy, which is
all the code ever asks of it. -/
inductive InterestInput where
  | str (s : String)
  | arr (l : List String)
  | other (truthy : Bool)
deriving DecidableEq

/-- JavaScript truthiness of an interest payload: `""`, `null`, `undefined`
are falsy; every nonempty string and every array is truthy. -/
def truthyInput : InterestInput → Bool
  | .str s => !(s == "")
  | .arr _ => true
  | .other t => t

/-- `parseInterests` from `next.config.ts`:
arrays keep entries that are truthy with nonblank trim; strings that are blank
or (untrimmed) case-insensitively `"random"` give `["Random"]`, otherwise the
comma pieces are trimmed, blanks dropped, and lowercased; any other value
gives `["Random"]`. -/
def parseInterests : InterestInput → List String
  | .arr l => l.filter (fun i => !(i == "") && !(jsTrim i == ""))
  | .str s =>
    if jsTrim s = "" ∨ jsToLower s = "random" then ["Random"]
    else (((jsSplitComma s).map jsTrim).filter (fun i => !(i == ""))).map jsToLower
  | .other _ => ["Random"]

/-- A pool entry: `{ socketId, interests, joinedAt }`. -/
structure WaitingUser where
  socketId : String
  interests : List String
  joinedAt : Nat
deriving DecidableEq

/-- `findCommonInterests` from `next.config.ts`:
`interests1.filter(i => interests2.includes(i))`. -/
def findCommonInterests (interests1 interests2 : List String) : List String :=
  interests1.filter (fun i => interests2.contains i)

/-- Accumulator of the `findBestMatch` loop; `earliestTimestamp = none` models
the initial `Infinity`. -/
structure FBMAcc where
  bestMatch : Option WaitingUser
  maxCommonInterests : Nat
  earliestTimestamp : Option Nat
deriving DecidableEq

/-- `waitingUser.joinedAt < earliestTimestamp`, with `Infinity` as `none`. -/
def ltInf (a : Nat) : Option Nat → Bool
  | none => true
  | some b => decide (a < b)

/-- One iteration of the `findBestMatch` loop body. -/
def fbmStep (uInterests : List String) (excludeSocketId : String)
    (acc : FBMAcc) (waitingUser : WaitingUser) : FBMAcc :=
  if waitingUser.socketId == excludeSocketId then acc
  else
    let commonCount := (findCommonInterests uInterests waitingUser.interests).length
    let bothRandom := uInterests.contains "random" && waitingUser.interests.contains "random"
    if commonCount == 0 && !bothRandom then acc
    else if decide (acc.maxCommonInterests < commonCount) then
      ⟨some waitingUser, commonCount, some waitingUser.joinedAt⟩
    else if commonCount == acc.maxCommonInterests && ltInf waitingUser.joinedAt acc.earliestTimestamp then
      ⟨some waitingUser, acc.maxCommonInterests, some waitingUser.joinedAt⟩
    else acc

/-- `findBestMatch` from `next.config.ts`. -/
def findBestMatch (uInterests : List String) (excludeSocketId : String)
    (pool : List WaitingUser) : Option WaitingUser :=
  (pool.foldl (fbmStep uInterests excludeSocketId) ⟨none, 0, none⟩).bestMatch

/-- The common-interest count the loop actually uses: the number of candidate
entries (with multiplicity) occurring in the pool entry's interests. -/
def cntCommon (u : List String) (w : WaitingUser) : Nat :=
  (findCommonInterests u w.interests).length

/-- Following the spec's words (§4.3): an entry is considered iff it is not the
excluded socket and not skipped; it is skipped iff the common count is zero and
not both sides declare `"random"`. -/
def qualifies (u : List String) (ex : String) (w : WaitingUser) : Bool :=
  !(w.socketId == ex) &&
  (!(cntCommon u w == 0) || (u.contains "random" && w.interests.contains "random"))

/-- Following the spec's words (§4.3): `w1` is strictly preferred to `w2` when
it has more common interests, or equally many and an earlier join time. -/
def betterB (u : List String) (w1 w2 : WaitingUser) : Bool :=
  decide (cntCommon u w2 < cntCommon u w1) ||
  (decide (cntCommon u w1 = cntCommon u w2) && decide (w1.joinedAt < w2.joinedAt))

/-- Keep the incumbent unless the newcomer is strictly preferred, so the first
entry in iteration order wins all ties. -/
def selStep (u : List String) (acc : Option WaitingUser) (w : WaitingUser) : Option WaitingUser :=
  match acc with
  | none => some w
  | some b => if betterB u w b then some w else some b

/-- Following the spec's words (§4.3): scan the pool in order, keeping the
strictly best entry seen so far. -/
def selectBest (u : List String) (pool : List WaitingUser) : Option WaitingUser :=
  pool.foldl (selStep u) none

/-- The loop accumulator corresponding to a current best choice. -/
def accOf (u : List String) : Option WaitingUser → FBMAcc
  | none => ⟨none, 0, none⟩
  | some b => ⟨some b, cntCommon u b, some b.joinedAt⟩

/-- The size of the set intersection of two interest lists (the metric the
spec's matcher section describes). -/
def setCommonCount (l1 l2 : List String) : Nat :=
  ((l1.dedup).filter (fun i => l2.contains i)).length

/-- Outbound events (`io.to(target).emit(...)`), tagged with the target socket. -/
inductive Emit where
  | waiting (target : String) (msg : String)
  | partnerFound (target : String) (partnerId : String)
  | receiveMessage (target : String) (sender : String) (text : String)
  | offerOut (target : String) (fromId : String) (payload : String)
  | answerOut (target : String) (fromId : String) (payload : String)
  | iceOut (target : String) (fromId : String) (payload : String)
  | stopVideoOut (target : String)
  | partnerDisconnected (target : String)
deriving DecidableEq

/-- The server's mutable state: `waitingUsers`, `activePairs`, `userInterests`,
plus a clock standing in for `Date.now()`. -/
structure ServerState where
  waitingUsers : List WaitingUser
  activePairs : String → Option String
  userInterests : String → Option (List String)
  time : Nat

/-- Record update / delete: `m[k] = v` (with `v = none` for `delete m[k]`). -/
def upd (m : String → Option α) (k : String) (v : Option α) : String → Option α :=
  fun x => if x = k then v else m x

/-- `waitingUsers.findIndex(...)` followed by `splice(index, 1)`: remove the
first entry with the given socket id, if any. -/
def removeFirstById : List WaitingUser → String → List WaitingUser
  | [], _ => []
  | w :: ws, sid => if w.socketId = sid then ws else w :: removeFirstById ws sid

/-- The lookup `activePairs[socket.id]` as used under `if (partnerId)`:
`undefined` and `""` are both falsy. -/
def partnerTarget (st : ServerState) (sid : String) : Option String :=
  match st.activePairs sid with
  | some p => if p = "" then none else some p
  | none => none

/-- The `interestStr` shown in the `waiting` message. -/
def interestString (interests : List String) : String :=
  if interests.length != 0 && !(interests.contains "random") then
    String.intercalate ", " interests
  else "Random"

/-- Text of the `waiting` emission. -/
def waitingMsg (interests : List String) : String :=
  "Waiting for someone interested in: " ++ interestString interests ++ "..."

/-- The shared tail of `find_partner` and `skip`: drop any stale pool entry for
the caller, then either pair with the best match (both sides of the registry
set, both clients notified) or enqueue the caller and notify it. -/
def matchmake (st : ServerState) (sid : String) (interests : List String) :
    ServerState × List Emit :=
  let pool1 := removeFirstById st.waitingUsers sid
  match findBestMatch interests sid pool1 with
  | some bm =>
    ({ st with
        waitingUsers := removeFirstById pool1 bm.socketId,
        activePairs := upd (upd st.activePairs sid (some bm.socketId)) bm.socketId (some sid) },
     [Emit.partnerFound sid bm.socketId, Emit.partnerFound bm.socketId sid])
  | none =>
    ({ st with waitingUsers := pool1 ++ [⟨sid, interests, st.time⟩] },
     [Emit.waiting sid (waitingMsg interests)])

/-- `find_partner` handler: parse and store interests, then matchmake.
The existing pair binding of the sender, if any, is not touched. -/
def handleFindPartner (st : ServerState) (sid : String) (input : InterestInput) :
    ServerState × List Emit :=
  let interests := parseInterests input
  matchmake { st with userInterests := upd st.userInterests sid (some interests) } sid interests

/-- `send_message` handler. -/
def handleSendMessage (st : ServerState) (sid text : String) : ServerState × List Emit :=
  match partnerTarget st sid with
  | some partnerId =>
    (st, [Emit.receiveMessage partnerId "partner" text, Emit.receiveMessage sid "me" text])
  | none => (st, [])

/-- `offer` handler. -/
def handleOffer (st : ServerState) (sid payload : String) : ServerState × List Emit :=
  match partnerTarget st sid with
  | some partnerId => (st, [Emit.offerOut partnerId sid payload])
  | none => (st, [])

/-- `answer` handler: forwards to `to` whenever `to` is truthy; the pair
registry is never consulted. -/
def handleAnswer (st : ServerState) (sid target payload : String) : ServerState × List Emit :=
  if target ≠ "" then (st, [Emit.answerOut target sid payload]) else (st, [])

/-- `ice-candidate` handler. -/
def handleIce (st : ServerState) (sid payload : String) : ServerState × List Emit :=
  match partnerTarget st sid with
  | some partnerId => (st, [Emit.iceOut partnerId sid payload])
  | none => (st, [])

/-- `stop_video` handler. -/
def handleStopVideo (st : ServerState) (sid : String) : ServerState × List Emit :=
  match partnerTarget st sid with
  | some partnerId => (st, [Emit.stopVideoOut partnerId])
  | none => (st, [])

/-- The common prefix of `skip` / `leaveChat` / `disconnect`: if the caller has
a (truthy) partner, emit `partner_disconnected` to it and delete the partner's
side of the binding. -/
def teardownPartner (st : ServerState) (sid : String) : ServerState × List Emit :=
  match partnerTarget st sid with
  | some partnerId =>
    ({ st with activePairs := upd st.activePairs partnerId none },
     [Emit.partnerDisconnected partnerId])
  | none => (st, [])

/-- Interests used by `skip`: the payload if truthy, else the remembered
interests, else `["Random"]`. -/
def skipInterests (st : ServerState) (sid : String) (input : InterestInput) : List String :=
  if truthyInput input then parseInterests input
  else (st.userInterests sid).getD ["Random"]

/-- `skip` handler: tear down the partner's side, delete the caller's side,
resolve and store interests, then matchmake. -/
def handleSkip (st : ServerState) (sid : String) (input : InterestInput) :
    ServerState × List Emit :=
  let td := teardownPartner st sid
  let interests := skipInterests st sid input
  let st1 := { td.1 with
                activePairs := upd td.1.activePairs sid none,
                userInterests := upd td.1.userInterests sid (some interests) }
  let mm := matchmake st1 sid interests
  (mm.1, td.2 ++ mm.2)

/-- `leaveChat` handler: tear down, remove from the pool, delete the caller's
binding and remembered interests. -/
def handleLeaveChat (st : ServerState) (sid : String) : ServerState × List Emit :=
  let td := teardownPartner st sid
  ({ td.1 with
      waitingUsers := removeFirstById td.1.waitingUsers sid,
      activePairs := upd td.1.activePairs sid none,
      userInterests := upd td.1.userInterests sid none },
   td.2)

/-- `disconnect` handler — the code is identical to `leaveChat`. -/
def handleDisconnect (st : ServerState) (sid : String) : ServerState × List Emit :=
  handleLeaveChat st sid

/-- Inbound events, tagged with the originating socket id. -/
inductive Event where
  | findPartner (sid : String) (input : InterestInput)
  | sendMessage (sid : String) (text : String)
  | offerIn (sid : String) (payload : String)
  | answerIn (sid : String) (target : String) (payload : String)
  | iceIn (sid : String) (payload : String)
  | stopVideoIn (sid : String)
  | skipIn (sid : String) (input : InterestInput)
  | leaveChatIn (sid : String)
  | disconnectIn (sid : String)
deriving DecidableEq

/-- Dispatch one inbound event to its handler. -/
def stepEvent (st : ServerState) : Event → ServerState × List Emit
  | .findPartner sid input => handleFindPartner st sid input
  | .sendMessage sid text => handleSendMessage st sid text
  | .offerIn sid payload => handleOffer st sid payload
  | .answerIn sid target payload => handleAnswer st sid target payload
  | .iceIn sid payload => handleIce st sid payload
  | .stopVideoIn sid => handleStopVideo st sid
  | .skipIn sid input => handleSkip st sid input
  | .leaveChatIn sid => handleLeaveChat st sid
  | .disconnectIn sid => handleDisconnect st sid

/-- Process an event and advance the clock (`Date.now()` is nondecreasing; one
tick per event). -/
def stepTimed (st : ServerState) (e : Event) : ServerState × List Emit :=
  let r := stepEvent st e
  ({ r.1 with time := r.1.time + 1 }, r.2)

/-- Run a sequence of events from a state, keeping only the final state. -/
def runEvents (st : ServerState) (es : List Event) : ServerState :=
  es.foldl (fun s e => (stepTimed s e).1) st

/-- The state at server start: nobody waiting, nobody paired. -/
def initState : ServerState := ⟨[], fun _ => none, fun _ => none, 0⟩

/-- A trace in which `a` and `b` get paired, `c` starts waiting, and then the
still-paired `a` sends `find_partner` again and is matched with `c`. -/
def repairTrace : List Event :=
  [.findPartner "a" (.str "x"), .findPartner "b" (.str "x"),
   .findPartner "c" (.str "y"), .findPartner "a" (.str "y")]

example : jsSplitComma "a,b" = ["a", "b"] := by decide
example : jsSplitComma "" = [""] := by decide
example : jsSplitComma "," = ["", ""] := by decide
example : jsTrim "  hi " = "hi" := by decide
example : jsToLower "MuSiC" = "music" := by decide

theorem head_dropWhile_false (p : Char → Bool) (l : List Char) (c : Char) (cs : List Char)
    (h : l.dropWhile p = c :: cs) : p c = false := by
  induction l with
  | nil => cases h
  | cons x xs ih =>
    by_cases hx : p x = true
    · rw [List.dropWhile_cons_of_pos hx] at h
      exact ih h
    · rw [List.dropWhile_cons_of_neg hx] at h
      injection h with h1 h2
      subst h1
      simpa using hx

theorem rdropWhile_cons_shape (p : Char → Bool) (m : List Char) (c : Char) (cs : List Char)
    (h : m.rdropWhile p = c :: cs) : ∃ t, m = c :: (cs ++ t) := by
  obtain ⟨t, ht⟩ := List.rdropWhile_prefix p m
  exact ⟨t, by rw [← ht, h]; rfl⟩

theorem trimChars_head_not_ws (l : List Char) (c : Char) (cs : List Char)
    (h : trimChars l = c :: cs) : isWsChar c = false := by
  obtain ⟨t, ht⟩ := rdropWhile_cons_shape isWsChar (l.dropWhile isWsChar) c cs h
  exact head_dropWhile_false isWsChar l c (cs ++ t) ht

theorem dropWhile_trimChars (l : List Char) :
    (trimChars l).dropWhile isWsChar = trimChars l := by
  cases h : trimChars l with
  | nil => rfl
  | cons c cs =>
    have hc : isWsChar c = false := trimChars_head_not_ws l c cs h
    rw [List.dropWhile_cons_of_neg (by simp [hc])]

theorem trimChars_idem (l : List Char) : trimChars (trimChars l) = trimChars l := by
  show ((trimChars l).dropWhile isWsChar).rdropWhile isWsChar = trimChars l
  rw [dropWhile_trimChars]
  exact List.rdropWhile_idempotent isWsChar (l.dropWhile isWsChar)

/-- JavaScript `trim` is idempotent. -/
theorem jsTrim_idem (s : String) : jsTrim (jsTrim s) = jsTrim s :=
  congrArg String.mk (trimChars_idem s.data)

theorem toNat_ofNat_valid {n : Nat} (h : n.isValidChar) : (Char.ofNat n).toNat = n := by
  rw [Char.ofNat, dif_pos h]
  rfl

/-- ASCII lowercasing maps whitespace to whitespace and nothing else to
whitespace. -/
theorem isWs_toLowerChar (c : Char) : isWsChar (toLowerChar c) = isWsChar c := by
  unfold toLowerChar
  split
  case isTrue h =>
    have hv : (Char.ofNat (c.toNat + 32)).toNat = c.toNat + 32 :=
      toNat_ofNat_valid (Or.inl (by omega))
    have h1 : isWsChar (Char.ofNat (c.toNat + 32)) = false := by
      simp only [isWsChar, hv, Bool.or_eq_false_iff, beq_eq_false_iff_ne]
      omega
    have h2 : isWsChar c = false := by
      simp only [isWsChar, Bool.or_eq_false_iff, beq_eq_false_iff_ne]
      omega
    rw [h1, h2]
  case isFalse h => rfl

theorem rdropWhile_map (f : Char → Char) (p : Char → Bool) (l : List Char) :
    (l.map f).rdropWhile p = (l.rdropWhile (p ∘ f)).map f := by
  show ((l.map f).reverse.dropWhile p).reverse =
    ((l.reverse.dropWhile (p ∘ f)).reverse).map f
  rw [← List.map_reverse, List.dropWhile_map]
  exact (List.map_reverse f (l.reverse.dropWhile (p ∘ f))).symm

theorem trimChars_map_toLower (l : List Char) :
    trimChars (l.map toLowerChar) = (trimChars l).map toLowerChar := by
  have hp : (isWsChar ∘ toLowerChar) = isWsChar := funext fun c => isWs_toLowerChar c
  show ((l.map toLowerChar).dropWhile isWsChar).rdropWhile isWsChar = _
  rw [List.dropWhile_map, hp, rdropWhile_map, hp]
  rfl

/-- Lowercasing commutes with trimming. -/
theorem jsTrim_jsToLower (s : String) : jsTrim (jsToLower s) = jsToLower (jsTrim s) :=
  congrArg String.mk (trimChars_map_toLower s.data)

theorem jsToLower_eq_empty (s : String) (h : jsToLower s = "") : s = "" := by
  have hd : s.data.map toLowerChar = [] := congrArg String.data h
  have h2 : s.data = [] := List.map_eq_nil_iff.mp hd
  cases s
  simp only at h2
  rw [h2]

example : parseInterests (.str "Music, Art ,music") = ["music", "art", "music"] := by decide
example : parseInterests (.str "RanDom") = ["Random"] := by decide
example : parseInterests (.str "  ") = ["Random"] := by decide
example : parseInterests (.str ",,") = [] := by decide
example : parseInterests (.arr ["a", " ", "", "a"]) = ["a", "a"] := by decide
example : parseInterests (.arr []) = [] := by decide
example : parseInterests (.other false) = ["Random"] := by decide

example :
    findBestMatch ["music", "movies"] "c"
      [⟨"x", ["music"], 1⟩, ⟨"y", ["music", "movies"], 2⟩] =
      some ⟨"y", ["music", "movies"], 2⟩ := by decide
example :
    findBestMatch ["music"] "c" [⟨"x", ["music"], 1⟩, ⟨"y", ["music"], 2⟩] =
      some ⟨"x", ["music"], 1⟩ := by decide
example : findBestMatch ["Random"] "c" [⟨"x", ["music"], 1⟩] = none := by decide
example : findBestMatch ["Random"] "c" [⟨"x", ["Random"], 1⟩] = some ⟨"x", ["Random"], 1⟩ := by decide

theorem accOf_bestMatch (u : List String) (o : Option WaitingUser) :
    (accOf u o).bestMatch = o := by
  cases o <;> rfl

theorem betterB_eq_true_iff (u : List String) (w1 w2 : WaitingUser) :
    betterB u w1 w2 = true ↔
      cntCommon u w2 < cntCommon u w1 ∨
      (cntCommon u w1 = cntCommon u w2 ∧ w1.joinedAt < w2.joinedAt) := by
  simp [betterB]

theorem betterB_eq_false_iff (u : List String) (w1 w2 : WaitingUser) :
    betterB u w1 w2 = false ↔
      cntCommon u w1 ≤ cntCommon u w2 ∧
      (cntCommon u w1 = cntCommon u w2 → w2.joinedAt ≤ w1.joinedAt) := by
  simp [betterB]

theorem betterB_irrefl (u : List String) (w : WaitingUser) : betterB u w w = false := by
  simp [betterB]

theorem betterB_asymm (u : List String) (w1 w2 : WaitingUser) (h : betterB u w1 w2 = true) :
    betterB u w2 w1 = false := by
  rw [betterB_eq_true_iff] at h
  rw [betterB_eq_false_iff]
  omega

theorem betterB_trans_false (u : List String) (w1 w2 w3 : WaitingUser)
    (h1 : betterB u w1 w2 = false) (h2 : betterB u w2 w3 = false) :
    betterB u w1 w3 = false := by
  rw [betterB_eq_false_iff] at h1 h2 ⊢
  omega

/-- One loop iteration agrees with one spec-side selection step on qualifying
entries and ignores the rest. -/
theorem fbmStep_accOf (u : List String) (ex : String) (o : Option WaitingUser) (w : WaitingUser) :
    fbmStep u ex (accOf u o) w =
      accOf u (if qualifies u ex w = true then selStep u o w else o) := by
  have hn : (findCommonInterests u w.interests).length = cntCommon u w := rfl
  unfold fbmStep
  rw [hn]
  by_cases hex : (w.socketId == ex) = true
  · rw [if_pos hex]
    have hq : qualifies u ex w = false := by
      unfold qualifies
      rw [hex]
      rfl
    rw [hq]
    rfl
  · have hexf : (w.socketId == ex) = false := by simpa using hex
    rw [if_neg hex]
    by_cases hskipP : cntCommon u w = 0 ∧
        (u.contains "random" && w.interests.contains "random") = false
    · rw [if_pos (show (cntCommon u w == 0 &&
          !(u.contains "random" && w.interests.contains "random")) = true by
        rw [show (cntCommon u w == 0) = true by simp [hskipP.1], hskipP.2]
        rfl)]
      have hq : qualifies u ex w = false := by
        unfold qualifies
        rw [hexf, hskipP.2, show (cntCommon u w == 0) = true by simp [hskipP.1]]
        rfl
      rw [hq]
      rfl
    · have hd : cntCommon u w ≠ 0 ∨
          (u.contains "random" && w.interests.contains "random") = true := by
        by_contra hcon
        push_neg at hcon
        exact hskipP ⟨hcon.1, by simpa using hcon.2⟩
      have hskipf : (cntCommon u w == 0 &&
          !(u.contains "random" && w.interests.contains "random")) = false := by
        rcases hd with h | h
        · rw [show (cntCommon u w == 0) = false by simp [h]]
          rfl
        · rw [h]
          simp
      have hq : qualifies u ex w = true := by
        unfold qualifies
        rw [hexf]
        rcases hd with h | h
        · rw [show (cntCommon u w == 0) = false by simp [h]]
          rfl
        · rw [h]
          simp
      rw [if_neg (show ¬ (cntCommon u w == 0 &&
            !(u.contains "random" && w.interests.contains "random")) = true by
          rw [hskipf]
          exact Bool.false_ne_true),
        if_pos hq]
      cases o with
      | none =>
        dsimp only [accOf, selStep]
        by_cases h3 : 0 < cntCommon u w
        · rw [if_pos (by simpa using h3)]
        · have h30 : cntCommon u w = 0 := by omega
          rw [if_neg (by simpa using h3),
            if_pos (show (cntCommon u w == 0 && ltInf w.joinedAt none) = true by
              simp [h30, ltInf])]
          rw [h30]
      | some b =>
        dsimp only [accOf, selStep]
        by_cases h3 : cntCommon u b < cntCommon u w
        · have hbet : betterB u w b = true := by
            rw [betterB_eq_true_iff]
            omega
          rw [if_pos (by simpa using h3), hbet]
          rfl
        · by_cases h4 : cntCommon u w = cntCommon u b ∧ w.joinedAt < b.joinedAt
          · have hbet : betterB u w b = true := by
              rw [betterB_eq_true_iff]
              omega
            rw [if_neg (by simpa using h3),
              if_pos (show (cntCommon u w == cntCommon u b &&
                  ltInf w.joinedAt (some b.joinedAt)) = true by
                simp only [ltInf, Bool.and_eq_true, beq_iff_eq, decide_eq_true_eq]
                exact h4),
              hbet]
            simp [h4.1]
          · have hbet : betterB u w b = false := by
              rw [betterB_eq_false_iff]
              omega
            rw [if_neg (by simpa using h3),
              if_neg (show ¬ (cntCommon u w == cntCommon u b &&
                  ltInf w.joinedAt (some b.joinedAt)) = true by
                simp only [ltInf, Bool.and_eq_true, beq_iff_eq, decide_eq_true_eq]
                exact h4),
              hbet]
            rfl

/-- The whole loop agrees with the spec-side scan over the qualifying entries. -/
theorem fbm_fold_eq (u : List String) (ex : String) :
    ∀ (l : List WaitingUser) (o : Option WaitingUser),
      l.foldl (fbmStep u ex) (accOf u o) =
        accOf u ((l.filter (qualifies u ex)).foldl (selStep u) o) := by
  intro l
  induction l with
  | nil => intro o; rfl
  | cons w l ih =>
    intro o
    rw [List.foldl_cons, fbmStep_accOf]
    by_cases hq : qualifies u ex w = true
    · rw [if_pos hq, List.filter_cons_of_pos hq, List.foldl_cons]
      exact ih (selStep u o w)
    · rw [if_neg hq, List.filter_cons_of_neg (by simpa using hq)]
      exact ih o

/-- `findBestMatch` refines the spec-side selection over qualifying entries. -/
theorem findBestMatch_eq_selectBest (u : List String) (ex : String) (pool : List WaitingUser) :
    findBestMatch u ex pool = selectBest u (pool.filter (qualifies u ex)) := by
  unfold findBestMatch selectBest
  rw [show (⟨none, 0, none⟩ : FBMAcc) = accOf u none from rfl, fbm_fold_eq, accOf_bestMatch]

/-- Scanning from an incumbent yields an element no scanned entry beats. -/
theorem selStep_foldl_spec (u : List String) :
    ∀ (l : List WaitingUser) (b : WaitingUser),
      ∃ r, l.foldl (selStep u) (some b) = some r ∧ (r = b ∨ r ∈ l) ∧
        betterB u b r = false ∧ ∀ x ∈ l, betterB u x r = false := by
  intro l
  induction l with
  | nil =>
    intro b
    exact ⟨b, rfl, Or.inl rfl, betterB_irrefl u b, by simp⟩
  | cons w l ih =>
    intro b
    by_cases hw : betterB u w b = true
    · obtain ⟨r, h1, h2, h3, h4⟩ := ih w
      refine ⟨r, ?_, ?_, ?_, ?_⟩
      · rw [List.foldl_cons, show selStep u (some b) w = some w by simp [selStep, hw]]
        exact h1
      · rcases h2 with h | h
        · exact Or.inr (h ▸ List.mem_cons_self w l)
        · exact Or.inr (List.mem_cons_of_mem w h)
      · exact betterB_trans_false u b w r (betterB_asymm u w b hw) h3
      · intro x hx
        rcases List.mem_cons.mp hx with rfl | hx
        · exact h3
        · exact h4 x hx
    · obtain ⟨r, h1, h2, h3, h4⟩ := ih b
      have hwf : betterB u w b = false := by
        simpa using hw
      refine ⟨r, ?_, ?_, h3, ?_⟩
      · rw [List.foldl_cons, show selStep u (some b) w = some b by simp [selStep, hwf]]
        exact h1
      · rcases h2 with h | h
        · exact Or.inl h
        · exact Or.inr (List.mem_cons_of_mem w h)
      · intro x hx
        rcases List.mem_cons.mp hx with rfl | hx
        · exact betterB_trans_false u x b r hwf h3
        · exact h4 x hx

theorem selectBest_none_iff (u : List String) (l : List WaitingUser) :
    selectBest u l = none ↔ l = [] := by
  cases l with
  | nil => simp [selectBest]
  | cons w l =>
    simp only [selectBest, List.foldl_cons]
    obtain ⟨r, h1, _, _, _⟩ := selStep_foldl_spec u l w
    rw [show selStep u none w = some w from rfl, h1]
    simp

theorem selectBest_spec (u : List String) (l : List WaitingUser) (r : WaitingUser)
    (h : selectBest u l = some r) :
    r ∈ l ∧ ∀ x ∈ l, betterB u x r = false := by
  cases l with
  | nil => simp [selectBest] at h
  | cons w l =>
    simp only [selectBest, List.foldl_cons] at h
    obtain ⟨r2, h1, h2, h3, h4⟩ := selStep_foldl_spec u l w
    rw [show selStep u none w = some w from rfl, h1] at h
    obtain rfl : r2 = r := by simpa using h
    constructor
    · rcases h2 with h | h
      · exact h ▸ List.mem_cons_self w l
      · exact List.mem_cons_of_mem w h
    · intro x hx
      rcases List.mem_cons.mp hx with rfl | hx
      · exact h3
      · exact h4 x hx

/-- Soundness of a match: the returned entry is in the pool and qualifies. -/
theorem findBestMatch_mem (u : List String) (ex : String) (pool : List WaitingUser)
    (w : WaitingUser) (h : findBestMatch u ex pool = some w) :
    w ∈ pool ∧ qualifies u ex w = true := by
  rw [findBestMatch_eq_selectBest] at h
  obtain ⟨hmem, _⟩ := selectBest_spec u _ w h
  exact ⟨(List.mem_filter.mp hmem).1, (List.mem_filter.mp hmem).2⟩

/-- A match is returned exactly when some entry qualifies. -/
theorem findBestMatch_none_iff (u : List String) (ex : String) (pool : List WaitingUser) :
    findBestMatch u ex pool = none ↔ pool.filter (qualifies u ex) = [] := by
  rw [findBestMatch_eq_selectBest, selectBest_none_iff]

/-- No qualifying entry beats the returned match. -/
theorem findBestMatch_maximal (u : List String) (ex : String) (pool : List WaitingUser)
    (w : WaitingUser) (h : findBestMatch u ex pool = some w) :
    ∀ w2 ∈ pool, qualifies u ex w2 = true → betterB u w2 w = false := by
  rw [findBestMatch_eq_selectBest] at h
  intro w2 hmem hq
  exact (selectBest_spec u _ w h).2 w2 (List.mem_filter.mpr ⟨hmem, hq⟩)

/-- Counterexample to C4 as stated: with the duplicated candidate list
`["a","a","b"]`, entries `w2 : ["b"]` (joined at 1) and `w1 : ["a"]` (joined
at 2) tie on the set-intersection count (`1` each), so by the claimed rule the
earlier `w2` must win; the code scores `w1` higher (the duplicate `"a"` counts
twice) and returns `w1`. -/
theorem findBestMatch_not_set_based :
    findBestMatch ["a", "a", "b"] "x" [⟨"w2", ["b"], 1⟩, ⟨"w1", ["a"], 2⟩] =
      some ⟨"w1", ["a"], 2⟩ ∧
    qualifies ["a", "a", "b"] "x" ⟨"w2", ["b"], 1⟩ = true ∧
    setCommonCount ["a", "a", "b"] ["b"] = setCommonCount ["a", "a", "b"] ["a"] ∧
    (⟨"w2", ["b"], 1⟩ : WaitingUser).joinedAt < (⟨"w1", ["a"], 2⟩ : WaitingUser).joinedAt := by
  decide

/-- C4 (amended): `findBestMatch` considers exactly the pool entries that are
not the excluded socket and not skipped (skipped iff the common count is zero
and not both sides declare `"random"`); among them it returns the scan winner:
the entry maximising the *multiset* common count
`(candidateInterests.filter (· ∈ W.interests)).length`, ties broken by smaller
`joinedAt`, remaining ties by iteration order; it returns `none` iff every
entry is excluded or skipped. -/
theorem findBestMatch_correct (u : List String) (ex : String) (pool : List WaitingUser) :
    findBestMatch u ex pool = selectBest u (pool.filter (qualifies u ex)) ∧
    (findBestMatch u ex pool = none ↔ pool.filter (qualifies u ex) = []) ∧
    ∀ w, findBestMatch u ex pool = some w →
      w ∈ pool ∧ qualifies u ex w = true ∧
      ∀ w2 ∈ pool, qualifies u ex w2 = true →
        cntCommon u w2 ≤ cntCommon u w ∧
        (cntCommon u w2 = cntCommon u w → w.joinedAt ≤ w2.joinedAt) := by
  refine ⟨findBestMatch_eq_selectBest u ex pool, findBestMatch_none_iff u ex pool, ?_⟩
  intro w h
  obtain ⟨hmem, hq⟩ := findBestMatch_mem u ex pool w h
  refine ⟨hmem, hq, ?_⟩
  intro w2 hm2 hq2
  have hb := findBestMatch_maximal u ex pool w h w2 hm2 hq2
  rw [betterB_eq_false_iff] at hb
  exact hb

/-- Witness for C4 at a concrete pool: the returned entry `w2` dominates the
qualifying entry `w1`. -/
theorem findBestMatch_correct_witness :
    cntCommon ["a", "b"] ⟨"w1", ["a"], 5⟩ ≤ cntCommon ["a", "b"] ⟨"w2", ["a", "b"], 9⟩ ∧
    (cntCommon ["a", "b"] ⟨"w1", ["a"], 5⟩ = cntCommon ["a", "b"] ⟨"w2", ["a", "b"], 9⟩ →
      (⟨"w2", ["a", "b"], 9⟩ : WaitingUser).joinedAt ≤
        (⟨"w1", ["a"], 5⟩ : WaitingUser).joinedAt) :=
  ((findBestMatch_correct ["a", "b"] "x" [⟨"w1", ["a"], 5⟩, ⟨"w2", ["a", "b"], 9⟩]).2.2
      ⟨"w2", ["a", "b"], 9⟩ (by decide)).2.2 ⟨"w1", ["a"], 5⟩ (by decide) (by decide)

example :
    (runEvents initState [.findPartner "a" (.str "x")]).waitingUsers = [⟨"a", ["x"], 0⟩] := by
  decide
example :
    (runEvents initState [.findPartner "a" (.str "x"), .findPartner "b" (.str "x")]).activePairs
      "a" = some "b" := by
  decide

theorem upd_same (m : String → Option α) (k : String) (v : Option α) : upd m k v k = v := by
  simp [upd]

theorem upd_other (m : String → Option α) (k x : String) (v : Option α) (h : x ≠ k) :
    upd m k v x = m x := by
  simp [upd, h]

theorem mem_of_mem_removeFirstById (l : List WaitingUser) (sid : String) (w : WaitingUser)
    (h : w ∈ removeFirstById l sid) : w ∈ l := by
  induction l with
  | nil => simp [removeFirstById] at h
  | cons x xs ih =>
    by_cases hx : x.socketId = sid
    · rw [removeFirstById, if_pos hx] at h
      exact List.mem_cons_of_mem x h
    · rw [removeFirstById, if_neg hx] at h
      rcases List.mem_cons.mp h with rfl | h
      · exact List.mem_cons.mpr (Or.inl rfl)
      · exact List.mem_cons_of_mem x (ih h)

theorem qualifies_ne (u : List String) (ex : String) (w : WaitingUser)
    (h : qualifies u ex w = true) : w.socketId ≠ ex := by
  unfold qualifies at h
  have h1 := (Bool.and_eq_true _ _).mp h |>.1
  simpa using h1

/-- C6: `skip` from `A` while paired with `B` (in a state satisfying the
spec's registry/pool invariants: the binding is the only one involving `B` and
`B` is not pooled) emits `partner_disconnected` to `B`; afterwards `B` appears
nowhere in the registry (neither as key nor as value) nor in the pool — `B` is
not auto-requeued — while `A` is re-matched exactly when some pool entry
qualifies for `A`'s supplied-or-remembered interests (both sides bound and
notified `partner_found`), and otherwise `A` is enqueued. -/
theorem skip_rematches_initiator_only (st : ServerState) (A B : String) (input : InterestInput)
    (hAB : st.activePairs A = some B) (hBne : B ≠ "") (hABne : A ≠ B)
    (hBA : ∀ X, st.activePairs X = some B → X = A)
    (hBpool : ∀ w ∈ st.waitingUsers, w.socketId ≠ B) :
    Emit.partnerDisconnected B ∈ (handleSkip st A input).2 ∧
    (handleSkip st A input).1.activePairs B = none ∧
    (∀ X, (handleSkip st A input).1.activePairs X ≠ some B) ∧
    (∀ w ∈ (handleSkip st A input).1.waitingUsers, w.socketId ≠ B) ∧
    (findBestMatch (skipInterests st A input) A (removeFirstById st.waitingUsers A) = none ↔
      (removeFirstById st.waitingUsers A).filter (qualifies (skipInterests st A input) A) = []) ∧
    (∀ bm, findBestMatch (skipInterests st A input) A (removeFirstById st.waitingUsers A) =
        some bm →
      (handleSkip st A input).1.activePairs A = some bm.socketId ∧
      (handleSkip st A input).1.activePairs bm.socketId = some A ∧
      Emit.partnerFound A bm.socketId ∈ (handleSkip st A input).2 ∧
      Emit.partnerFound bm.socketId A ∈ (handleSkip st A input).2) ∧
    (findBestMatch (skipInterests st A input) A (removeFirstById st.waitingUsers A) = none →
      (⟨A, skipInterests st A input, st.time⟩ : WaitingUser) ∈
        (handleSkip st A input).1.waitingUsers ∧
      Emit.waiting A (waitingMsg (skipInterests st A input)) ∈ (handleSkip st A input).2) := by
  have htd : teardownPartner st A =
      ({ st with activePairs := upd st.activePairs B none }, [Emit.partnerDisconnected B]) := by
    unfold teardownPartner partnerTarget
    rw [hAB]
    simp [hBne]
  unfold handleSkip matchmake
  rw [htd]
  dsimp only
  cases hm : findBestMatch (skipInterests st A input) A (removeFirstById st.waitingUsers A) with
  | some bm =>
    dsimp only
    have hq := findBestMatch_mem _ _ _ _ hm
    have hbmmem : bm ∈ st.waitingUsers := mem_of_mem_removeFirstById _ _ _ hq.1
    have hbmB : bm.socketId ≠ B := hBpool bm hbmmem
    have hbmA : bm.socketId ≠ A := qualifies_ne _ _ _ hq.2
    refine ⟨by simp, ?_, ?_, ?_, by rw [← hm]; exact findBestMatch_none_iff _ _ _, ?_, by simp⟩
    · rw [upd_other _ _ _ _ (fun h => hbmB h.symm), upd_other _ _ _ _ (fun h => hABne h.symm),
        upd_other _ _ _ _ (fun h => hABne h.symm), upd_same]
    · intro X
      by_cases h1 : X = bm.socketId
      · rw [h1, upd_same]
        simp [hABne]
      · rw [upd_other _ _ _ _ h1]
        by_cases h2 : X = A
        · rw [h2, upd_same]
          simp [hbmB]
        · rw [upd_other _ _ _ _ h2, upd_other _ _ _ _ h2]
          by_cases h3 : X = B
          · rw [h3, upd_same]
            simp
          · rw [upd_other _ _ _ _ h3]
            intro hcon
            exact h2 (hBA X hcon)
    · intro w hw
      exact hBpool w
        (mem_of_mem_removeFirstById _ _ _ (mem_of_mem_removeFirstById _ _ _ hw))
    · intro bm2 hbm2
      obtain rfl : bm = bm2 := by
        simpa using hbm2
      refine ⟨?_, by rw [upd_same], by simp, by simp⟩
      rw [upd_other _ _ _ _ (fun h => hbmA h.symm), upd_same]
  | none =>
    dsimp only
    refine ⟨by simp, ?_, ?_, ?_,
      by simpa using (findBestMatch_none_iff _ _ _).mp hm, ?_, by simp⟩
    · rw [upd_other _ _ _ _ (fun h => hABne h.symm), upd_same]
    · intro X
      by_cases h2 : X = A
      · rw [h2, upd_same]
        simp
      · rw [upd_other _ _ _ _ h2]
        by_cases h3 : X = B
        · rw [h3, upd_same]
          simp
        · rw [upd_other _ _ _ _ h3]
          intro hcon
          exact h2 (hBA X hcon)
    · intro w hw
      rcases List.mem_append.mp hw with hw | hw
      · exact hBpool w (mem_of_mem_removeFirstById _ _ _ hw)
      · obtain rfl : w = ⟨A, skipInterests st A input, st.time⟩ := by simpa using hw
        exact hABne
    · intro bm2 hbm2
      cases hbm2

/-- Witness for C6 at a concrete state: `a ↔ b` paired, `c` waiting with
interest `x`; `a` skips with payload `"x"`. -/
theorem skip_rematches_witness :
    Emit.partnerDisconnected "b" ∈
      (handleSkip ⟨[⟨"c", ["x"], 5⟩],
        fun x => if x = "a" then some "b" else if x = "b" then some "a" else none,
        fun _ => none, 7⟩ "a" (.str "x")).2 ∧
    (handleSkip ⟨[⟨"c", ["x"], 5⟩],
        fun x => if x = "a" then some "b" else if x = "b" then some "a" else none,
        fun _ => none, 7⟩ "a" (.str "x")).1.activePairs "a" = some "c" := by
  have h := skip_rematches_initiator_only
    ⟨[⟨"c", ["x"], 5⟩],
      fun x => if x = "a" then some "b" else if x = "b" then some "a" else none,
      fun _ => none, 7⟩ "a" "b" (.str "x") (by decide) (by decide) (by decide)
    (by
      intro X hX
      by_cases h1 : X = "a"
      · exact h1
      · by_cases h2 : X = "b"
        · rw [h2] at hX
          simp at hX
        · simp only [h1, h2, if_false] at hX
          cases hX)
    (by decide)
  exact ⟨h.1, ((h.2.2.2.2.2.1 ⟨"c", ["x"], 5⟩ (by decide)).1)⟩

/-- C10: `skip` from a client with no registry entry notifies nobody of a
disconnect and is processed exactly as matchmaking: the stale pool entry is
removed, then the client is either paired with the best qualifying pool entry
(both notified `partner_found`) or enqueued and notified `waiting`. -/
theorem skip_unpaired_is_matchmaking (st : ServerState) (sid : String) (input : InterestInput)
    (h : st.activePairs sid = none) :
    (∀ x, Emit.partnerDisconnected x ∉ (handleSkip st sid input).2) ∧
    (∀ bm, findBestMatch (skipInterests st sid input) sid (removeFirstById st.waitingUsers sid) =
        some bm →
      (handleSkip st sid input).2 =
        [Emit.partnerFound sid bm.socketId, Emit.partnerFound bm.socketId sid] ∧
      (handleSkip st sid input).1.activePairs sid = some bm.socketId ∧
      (handleSkip st sid input).1.activePairs bm.socketId = some sid ∧
      (handleSkip st sid input).1.waitingUsers =
        removeFirstById (removeFirstById st.waitingUsers sid) bm.socketId) ∧
    (findBestMatch (skipInterests st sid input) sid (removeFirstById st.waitingUsers sid) = none →
      (handleSkip st sid input).2 = [Emit.waiting sid (waitingMsg (skipInterests st sid input))] ∧
      (handleSkip st sid input).1.waitingUsers =
        removeFirstById st.waitingUsers sid ++ [⟨sid, skipInterests st sid input, st.time⟩] ∧
      (handleSkip st sid input).1.activePairs sid = none) := by
  unfold handleSkip teardownPartner partnerTarget matchmake
  rw [h]
  cases hm : findBestMatch (skipInterests st sid input) sid (removeFirstById st.waitingUsers sid) with
  | none => simp [hm, upd]
  | some bm =>
    simp only [hm]
    refine ⟨by simp, ?_, by simp⟩
    intro bm2 hbm2
    obtain rfl : bm = bm2 := by simpa using hbm2
    refine ⟨by simp, ?_, ?_, by simp⟩
    · by_cases he : sid = bm.socketId
      · simp [upd, he]
      · simp [upd, he]
    · simp [upd]

/-- Witness for C10: `c` waits with interest `x`; the unpaired `d` skips with
payload `"x"` and is matched with `c`, nobody receiving `partner_disconnected`. -/
theorem skip_unpaired_witness :
    (Emit.partnerDisconnected "c" ∉
      (handleSkip (runEvents initState [.findPartner "c" (.str "x")]) "d" (.str "x")).2) ∧
    (handleSkip (runEvents initState [.findPartner "c" (.str "x")]) "d" (.str "x")).2 =
      [Emit.partnerFound "d" "c", Emit.partnerFound "c" "d"] :=
  ⟨(skip_unpaired_is_matchmaking (runEvents initState [.findPartner "c" (.str "x")]) "d"
      (.str "x") (by decide)).1 "c",
   ((skip_unpaired_is_matchmaking (runEvents initState [.findPartner "c" (.str "x")]) "d"
      (.str "x") (by decide)).2.1 ⟨"c", ["x"], 0⟩ (by decide)).1⟩

/-- C1: the pair-registry symmetry invariant is violated by the code.  After
`repairTrace`, the registry maps `b` to `a` while `a` is mapped to `c`, because
the `find_partner` handler never clears an existing binding: the reachable
state has `b → a` without `a → b`. -/
theorem pairRegistry_symmetry_violated :
    (runEvents initState repairTrace).activePairs "b" = some "a" ∧
    (runEvents initState repairTrace).activePairs "a" = some "c" ∧
    ¬ (runEvents initState repairTrace).activePairs "a" = some "b" := by
  decide

/-- Counterexample to C3 as stated: with an empty registry (so `"z"` is
certainly not the sender's partner), `answer(to := "z")` is still forwarded to
`"z"`, tagged with the sender — the event is not dropped. -/
theorem answer_forwarded_to_nonpartner :
    initState.activePairs "a" = none ∧
    (handleAnswer initState "a" "z" "sdp").2 = [Emit.answerOut "z" "a" "sdp"] := by
  decide

/-- C3 (amended): the `answer` handler never touches the state and forwards
the payload to `to` (tagged `from: senderId`) exactly when `to` is truthy
(a nonempty string); the pair registry is not consulted at all. -/
theorem answer_forwarded_iff_target_truthy (st : ServerState) (sid target payload : String) :
    (handleAnswer st sid target payload).1 = st ∧
    (handleAnswer st sid target payload).2 =
      (if target ≠ "" then [Emit.answerOut target sid payload] else []) := by
  unfold handleAnswer
  split <;> simp

/-- C7: the echo law.  When the sender has a (truthy) partner in the registry,
`send_message(text)` emits exactly two `receive_message` events — to the
partner with sender `"partner"` and to the sender with sender `"me"`, both
with the same text — and nothing else, leaving the state unchanged. -/
theorem sendMessage_echo (st : ServerState) (sid text partnerId : String)
    (h : st.activePairs sid = some partnerId) (hp : partnerId ≠ "") :
    (handleSendMessage st sid text).2 =
      [Emit.receiveMessage partnerId "partner" text, Emit.receiveMessage sid "me" text] ∧
    (handleSendMessage st sid text).1 = st := by
  unfold handleSendMessage partnerTarget
  rw [h]
  simp [hp]

/-- Witness for C7 at a concrete paired state. -/
theorem sendMessage_echo_witness :
    (handleSendMessage
        (runEvents initState [.findPartner "a" (.str "x"), .findPartner "b" (.str "x")])
        "b" "hello").2 =
      [Emit.receiveMessage "a" "partner" "hello", Emit.receiveMessage "b" "me" "hello"] ∧
    (handleSendMessage
        (runEvents initState [.findPartner "a" (.str "x"), .findPartner "b" (.str "x")])
        "b" "hello").1 =
      runEvents initState [.findPartner "a" (.str "x"), .findPartner "b" (.str "x")] :=
  sendMessage_echo _ "b" "hello" "a" (by decide) (by decide)

/-- The matchmaking tail always answers the caller with something
(`partner_found` or `waiting`). -/
theorem matchmake_emits_ne_nil (st : ServerState) (sid : String) (ints : List String) :
    (matchmake st sid ints).2 ≠ [] := by
  unfold matchmake
  cases h : findBestMatch ints sid (removeFirstById st.waitingUsers sid) <;> simp [h]

/-- C9: a `find_partner` payload that is neither a string nor an array is
normalised to `["Random"]`; the handler behaves exactly as on a blank-string
payload and still answers the caller — the event is not dropped. -/
theorem findPartner_nonstring_total (st : ServerState) (sid : String) (t : Bool) :
    parseInterests (.other t) = ["Random"] ∧
    handleFindPartner st sid (.other t) = handleFindPartner st sid (.str "") ∧
    (handleFindPartner st sid (.other t)).2 ≠ [] := by
  have hs : parseInterests (.str "") = ["Random"] := by decide
  have ho : parseInterests (.other t) = ["Random"] := rfl
  refine ⟨rfl, ?_, ?_⟩
  · unfold handleFindPartner
    rw [hs, ho]
  · unfold handleFindPartner
    exact matchmake_emits_ne_nil _ _ _

/-- C2: `find_partner` from a paired client performs no tear-down.  With `a`
paired to `b` and `c` waiting, `a`'s second `find_partner` emits only the two
`partner_found` events (no `partner_disconnected` to `b`), and afterwards the
former partner `b` is still bound to `a`. -/
theorem findPartner_paired_no_teardown :
    (runEvents initState (repairTrace.take 3)).activePairs "a" = some "b" ∧
    (stepEvent (runEvents initState (repairTrace.take 3)) (.findPartner "a" (.str "y"))).2 =
      [Emit.partnerFound "a" "c", Emit.partnerFound "c" "a"] ∧
    (stepEvent (runEvents initState (repairTrace.take 3)) (.findPartner "a" (.str "y"))).1.activePairs
      "b" = some "a" := by
  decide

/-- C8: normalisation is idempotent — feeding the normaliser's output (a list
of strings) back into it returns it unchanged, for every kind of input. -/
theorem parseInterests_idem (x : InterestInput) :
    parseInterests (.arr (parseInterests x)) = parseInterests x := by
  cases x with
  | other t =>
    show parseInterests (.arr ["Random"]) = ["Random"]
    decide
  | arr l =>
    exact List.filter_eq_self.mpr fun a ha => (List.mem_filter.mp ha).2
  | str s =>
    have hstr : parseInterests (.str s) =
        if jsTrim s = "" ∨ jsToLower s = "random" then ["Random"]
        else (((jsSplitComma s).map jsTrim).filter (fun i => !(i == ""))).map jsToLower := rfl
    by_cases hc : jsTrim s = "" ∨ jsToLower s = "random"
    · rw [hstr, if_pos hc]
      decide
    · rw [hstr, if_neg hc]
      apply List.filter_eq_self.mpr
      intro a ha
      obtain ⟨j, hj, rfl⟩ := List.mem_map.mp ha
      have hjf := List.mem_filter.mp hj
      have hjne : j ≠ "" := by simpa using hjf.2
      obtain ⟨piece, hpm, rfl⟩ := List.mem_map.mp hjf.1
      have h1 : jsToLower (jsTrim piece) ≠ "" := fun h => hjne (jsToLower_eq_empty _ h)
      have h2 : jsTrim (jsToLower (jsTrim piece)) = jsToLower (jsTrim piece) := by
        rw [jsTrim_jsToLower, jsTrim_idem]
      simp [h1, h2]

/-- Counterexample to C5 as stated: the sentinel list is the capitalised
`["Random"]`, never the lowercase `["random"]`; an empty array input yields
`[]`, not the sentinel; and duplicates are kept, in a list and in a string. -/
theorem parseInterests_not_normalised :
    parseInterests (.str "") = ["Random"] ∧
    parseInterests (.str "") ≠ ["random"] ∧
    parseInterests (.arr []) = [] ∧
    parseInterests (.arr ["a", "a"]) = ["a", "a"] ∧
    parseInterests (.str "a,a") = ["a", "a"] := by
  decide

/-- C5 (amended): a list input keeps exactly its entries that are nonempty
with nonblank trim, in order (a sublist — possibly empty, never padded to the
sentinel); a string input that is blank or case-insensitively `"random"`
yields exactly `["Random"]` (capitalised); no entry of a parsed string is the
empty string; any non-string non-list input yields `["Random"]`.  No
deduplication is performed anywhere. -/
theorem parseInterests_postcondition :
    (∀ l, parseInterests (.arr l) =
        l.filter (fun i => !(i == "") && !(jsTrim i == "")) ∧
      (parseInterests (.arr l)).Sublist l) ∧
    (∀ s, jsTrim s = "" ∨ jsToLower s = "random" → parseInterests (.str s) = ["Random"]) ∧
    (∀ s, ∀ x ∈ parseInterests (.str s), x ≠ "") ∧
    (∀ t, parseInterests (.other t) = ["Random"]) := by
  refine ⟨fun l => ⟨rfl, List.filter_sublist l⟩, ?_, ?_, fun t => rfl⟩
  · intro s h
    show (if jsTrim s = "" ∨ jsToLower s = "random" then ["Random"]
      else (((jsSplitComma s).map jsTrim).filter (fun i => !(i == ""))).map jsToLower) = ["Random"]
    rw [if_pos h]
  · intro s x hx
    by_cases hc : jsTrim s = "" ∨ jsToLower s = "random"
    · have : parseInterests (.str s) = ["Random"] := by
        show (if jsTrim s = "" ∨ jsToLower s = "random" then ["Random"]
          else (((jsSplitComma s).map jsTrim).filter (fun i => !(i == ""))).map jsToLower) =
          ["Random"]
        rw [if_pos hc]
      rw [this] at hx
      obtain rfl : x = "Random" := by simpa using hx
      decide
    · have hform : parseInterests (.str s) =
          (((jsSplitComma s).map jsTrim).filter (fun i => !(i == ""))).map jsToLower := by
        show (if jsTrim s = "" ∨ jsToLower s = "random" then ["Random"]
          else (((jsSplitComma s).map jsTrim).filter (fun i => !(i == ""))).map jsToLower) = _
        rw [if_neg hc]
      rw [hform] at hx
      obtain ⟨j, hj, rfl⟩ := List.mem_map.mp hx
      have hjne : j ≠ "" := by simpa using (List.mem_filter.mp hj).2
      exact fun h => hjne (jsToLower_eq_empty _ h)

/-- Witness for C5's amended postcondition at concrete inputs. -/
theorem parseInterests_postcondition_witness :
    parseInterests (.str "  ") = ["Random"] ∧ ("music" : String) ≠ "" :=
  ⟨parseInterests_postcondition.2.1 "  " (Or.inl (by decide)),
   parseInterests_postcondition.2.2.1 "MuSiC" "music" (by decide)⟩
